import Mathlib

/-!
Shallow embedding of the traffic-cycle accounting core of `src/main.py`
(hetzner-web).  Byte counters are modelled as natural numbers: the Python
code passes them through `float`, which is exact for the integer counter
values the provider reports (below 2^53), and `Decimal`-division plus
half-up quantization to 3 decimal places is modelled exactly by integer
arithmetic on milli-TB values (1 TB = 1024^4 bytes, so a figure of `n`
milli-TB stands for the Decimal `n / 1000`).  Python dicts are modelled
as association lists in insertion order; `dict.setdefault`-then-mutate
is `updateA`, `dict.get` is `lookupS`.  Optional/missing JSON fields are
`Option`; Python treats both `None` and the empty string as falsy, and
names are modelled as `Option String` with `none` for a missing name.
-/

/-- One server traffic reading: the `name` / `outbound_bytes` /
`inbound_bytes` dict stored per server id per hour. -/
structure Reading where
  name : Option String
  outbound_bytes : Option Nat
  inbound_bytes : Option Nat
deriving Repr, DecidableEq

/-- A snapshot: dict from server id to reading, in insertion order. -/
abbrev Snapshot := List (String × Reading)

/-- The persisted hourly series: dict from hour-bucket label to snapshot. -/
abbrev Series := List (String × Snapshot)

/-- Dict lookup (`d.get(k)`): first binding of the key, if any. -/
def lookupS (k : String) : List (String × α) → Option α
  | [] => none
  | (k1, v) :: t => if k1 = k then some v else lookupS k t

/-- Dict update with default (`d.setdefault(k, dflt)` followed by mutating
the entry with `f`): updates the first binding in place, or appends a new
binding `(k, f dflt)` at the end, as Python insertion order does. -/
def updateA (l : List (String × α)) (k : String) (f : α → α) (dflt : α) :
    List (String × α) :=
  match l with
  | [] => [(k, f dflt)]
  | (k1, v) :: t => if k1 = k then (k1, f v) :: t else (k1, v) :: updateA t k f dflt

/-- Code-point comparison of char lists, matching Python string `<=`. -/
def charListLe : List Char → List Char → Bool
  | [], _ => true
  | _ :: _, [] => false
  | a :: as, b :: bs =>
    if a.toNat < b.toNat then true
    else if b.toNat < a.toNat then false
    else charListLe as bs

/-- Boolean lexicographic order on strings by code points. -/
def keyLe (a b : String) : Bool := charListLe a.data b.data

/-- Propositional form of `keyLe`, used for sorting hour-bucket keys. -/
def keyLE : String → String → Prop := fun a b => keyLe a b = true

instance : DecidableRel keyLE := fun a b => inferInstanceAs (Decidable (keyLe a b = true))

/-- Python `sorted` on dict keys (all keys distinct, so stability is moot). -/
def sortKeys (l : List String) : List String := List.insertionSort keyLE l

/-- Model of `_bytes_to_tb`: bytes to milli-TB, rounded half-up.  The
Decimal computation `(Decimal(b) / Decimal(1024)**4).quantize(Decimal("0.001"),
ROUND_HALF_UP)` equals `floor((1000 * b + 2^39) / 2^40)`, i.e. the value
below; the 28-digit context precision of the intermediate division never
changes the quantized result for counters in the exact-float range,
because `1000 * b / 2^40` can approach a half-way point no closer than
`2^-41` without hitting it. -/
def bytes_to_tb (b : Nat) : Nat := (2000 * b + 2 ^ 40) / 2 ^ 41

/-- Three decimal digits of `m % 1000`, as rendered by `str(Decimal)` for
the fractional part of a 3-decimal figure. -/
def pad3 (m : Nat) : String :=
  String.mk [Nat.digitChar (m / 100 % 10), Nat.digitChar (m / 10 % 10), Nat.digitChar (m % 10)]

/-- Rendering of a milli-TB figure as `str(Decimal)` renders a 3-decimal
Decimal: integer part, a dot, and exactly three fractional digits. -/
def milliToStr (n : Nat) : String := Nat.repr (n / 1000) ++ "." ++ pad3 (n % 1000)

/-- Model of `_date_from_hour_key`: empty key gives `None`; otherwise the
prefix before the first space if a space occurs, else `None`. -/
def date_from_hour_key (key : String) : Option String :=
  if key = "" then none
  else if key.data.contains ' ' then
    some (String.mk (key.data.takeWhile (fun c => c != ' ')))
  else none

/-- Decimal digit test on a char, by code point. -/
def isDigitC (c : Char) : Bool := Nat.ble 48 c.toNat && Nat.ble c.toNat 57

/-- Numeric value of a decimal digit char. -/
def digitVal (c : Char) : Nat := c.toNat - 48

/-- Days in a month, with the Gregorian leap rule, as `datetime` validates. -/
def daysInMonth (y m : Nat) : Nat :=
  if m = 2 then (if (y % 4 = 0 ∧ ¬y % 100 = 0) ∨ y % 400 = 0 then 29 else 28)
  else if m = 4 ∨ m = 6 ∨ m = 9 ∨ m = 11 then 30 else 31

/-- Model of `_parse_hour`: `datetime.strptime(key, "%Y-%m-%d %H:%M").hour`
on the fixed-width bucket format, `None` on any parse failure. -/
def parse_hour (key : String) : Option Nat :=
  match key.data with
  | [y1, y2, y3, y4, c1, m1, m2, c2, d1, d2, c3, h1, h2, c4, n1, n2] =>
    let digitsOk := isDigitC y1 && isDigitC y2 && isDigitC y3 && isDigitC y4 &&
      (c1 == '-') && isDigitC m1 && isDigitC m2 && (c2 == '-') &&
      isDigitC d1 && isDigitC d2 && (c3 == ' ') && isDigitC h1 && isDigitC h2 &&
      (c4 == ':') && isDigitC n1 && isDigitC n2
    let y := 1000 * digitVal y1 + 100 * digitVal y2 + 10 * digitVal y3 + digitVal y4
    let mo := 10 * digitVal m1 + digitVal m2
    let d := 10 * digitVal d1 + digitVal d2
    let h := 10 * digitVal h1 + digitVal h2
    let mi := 10 * digitVal n1 + digitVal n2
    if digitsOk && Nat.ble 1 mo && Nat.ble mo 12 && Nat.ble 1 d &&
        Nat.ble d (daysInMonth y mo) && Nat.ble h 23 && Nat.ble mi 59 then
      some h
    else none
  | _ => none

/-- One aggregate of `_delta_by_name`: milli-TB outbound/inbound delta
sums and their presence flags, per display name. -/
structure DeltaEntry where
  out : Nat
  din : Nat
  has_out : Bool
  has_in : Bool
deriving Repr, DecidableEq

/-- Display-name resolution used inside `_delta_by_name`:
`data.get("name") or prev_data.get("name") or str(sid)`. -/
def deltaName (prev : Snapshot) (sid : String) (r : Reading) : String :=
  match r.name with
  | some n => n
  | none =>
    match (lookupS sid prev).bind Reading.name with
    | some n => n
    | none => sid

/-- Per-identifier outbound delta of `_delta_by_name`: computable only
when both endpoint readings are present and the counter did not decrease. -/
def outDeltaOf (prev : Snapshot) (sid : String) (r : Reading) : Option Nat :=
  match (lookupS sid prev).bind Reading.outbound_bytes, r.outbound_bytes with
  | some po, some co => if po ≤ co then some (bytes_to_tb (co - po)) else none
  | _, _ => none

/-- Per-identifier inbound delta of `_delta_by_name`. -/
def inDeltaOf (prev : Snapshot) (sid : String) (r : Reading) : Option Nat :=
  match (lookupS sid prev).bind Reading.inbound_bytes, r.inbound_bytes with
  | some pi, some ci => if pi ≤ ci then some (bytes_to_tb (ci - pi)) else none
  | _, _ => none

/-- Mutation of one aggregate entry by one identifier's deltas, as the
loop body of `_delta_by_name` performs on the `setdefault` result. -/
def applyDeltas (prev : Snapshot) (sid : String) (r : Reading) (e : DeltaEntry) : DeltaEntry :=
  let e1 := match outDeltaOf prev sid r with
    | some v => { e with out := e.out + v, has_out := true }
    | none => e
  match inDeltaOf prev sid r with
  | some v => { e1 with din := e1.din + v, has_in := true }
  | none => e1

/-- Model of `_delta_by_name(prev, curr)`: fold over the current snapshot
in dict order, aggregating per resolved display name. -/
def delta_by_name (prev curr : Snapshot) : List (String × DeltaEntry) :=
  curr.foldl
    (fun agg p => updateA agg (deltaName prev p.1 p.2) (applyDeltas prev p.1 p.2)
      ⟨0, 0, false, false⟩)
    []

/-- One merged-by-name entry of `_merge_hourly_snapshot`. -/
structure MergedEntry where
  name : String
  outbound_bytes : Option Nat
  inbound_bytes : Option Nat
deriving Repr, DecidableEq

/-- Model of `_sum_optional`: add optional byte counts, `None` acting as
the identity and surviving only when both sides are `None`. -/
def sum_optional : Option Nat → Option Nat → Option Nat
  | none, none => none
  | none, some b => some b
  | some a, none => some a
  | some a, some b => some (a + b)

/-- Display-name resolution of `_merge_hourly_snapshot`:
`data.get("name") or str(sid)`. -/
def mergeName (sid : String) (r : Reading) : String := r.name.getD sid

/-- Mutation of one merged entry by one identifier's reading. -/
def applyMerge (r : Reading) (e : MergedEntry) : MergedEntry :=
  { e with outbound_bytes := sum_optional e.outbound_bytes r.outbound_bytes,
           inbound_bytes := sum_optional e.inbound_bytes r.inbound_bytes }

/-- Model of `_merge_hourly_snapshot`: re-key one hour's snapshot by
display name, summing readings of identifiers sharing a name. -/
def merge_hourly_snapshot (snapshot : Snapshot) : List (String × MergedEntry) :=
  snapshot.foldl
    (fun merged p => updateA merged (mergeName p.1 p.2) (applyMerge p.2)
      ⟨mergeName p.1 p.2, none, none⟩)
    []

/-- Result record of `_compute_tracking_totals`. -/
structure TrackingTotals where
  start : Option String
  outbound_tb : String
  inbound_tb : String
deriving Repr, DecidableEq

/-- Accumulation of one delta aggregate into the running totals pair, as
the inner loop of `_compute_tracking_totals` performs. -/
def trackAdd (acc : Nat × Nat) (e : DeltaEntry) : Nat × Nat :=
  let acc1 := if e.has_out then (acc.1 + e.out, acc.2) else acc
  if e.has_in then (acc1.1, acc1.2 + e.din) else acc1

/-- Outbound/inbound totals over a run of adjacent hour-key pairs. -/
def trackPairTotals (hourly : Series) (pairs : List (String × String)) : Nat × Nat :=
  pairs.foldl
    (fun acc pr =>
      (delta_by_name ((lookupS pr.1 hourly).getD []) ((lookupS pr.2 hourly).getD [])).foldl
        (fun acc2 e => trackAdd acc2 e.2) acc)
    (0, 0)

/-- Model of `_compute_tracking_totals(hourly, start_override)`. -/
def compute_tracking_totals (hourly : Series) (start_override : Option String) :
    TrackingTotals :=
  match sortKeys (hourly.map Prod.fst) with
  | [] => ⟨none, "0.000", "0.000"⟩
  | k0 :: _ =>
    let keys := sortKeys (hourly.map Prod.fst)
    let chosen : Option (Nat × String) :=
      match start_override with
      | some ov => (keys.findIdx? (fun k => keyLe ov k)).map (fun i => (i, ov))
      | none => some (0, k0)
    match chosen with
    | none => ⟨start_override, "0.000", "0.000"⟩
    | some (idx, label) =>
      let ks := keys.drop idx
      let t := trackPairTotals hourly (ks.zip ks.tail)
      ⟨some label, milliToStr t.1, milliToStr t.2⟩

/-- One cycle point of `_compute_cycle_data`, TB figures in milli-TB. -/
structure CyclePoint where
  time : String
  out_tb_h : Nat
  cycle_out_cum_tb : Nat
  cycle_age_h : Nat
  hour_of_day : Option Nat
deriving Repr, DecidableEq

/-- One server's slot in the `_compute_cycle_data` result. -/
structure ServerCycle where
  name : String
  points : List CyclePoint
  rebuilds : List String
deriving Repr, DecidableEq

/-- The hour delta credited to a server id at one transition:
`deltas.get(sid, {})`, then `data["out"] if data.get("has_out") else 0.000`. -/
def cycleTotalOut (hourly : Series) (sid : String) (prevKey currKey : String) : Nat :=
  match lookupS sid (delta_by_name ((lookupS prevKey hourly).getD [])
      ((lookupS currKey hourly).getD [])) with
  | some e => if e.has_out then e.out else 0
  | none => 0

/-- Rebuild test of `_compute_cycle_data` at one transition: both
endpoint readings present and the outbound counter strictly decreased. -/
def cycleRebuild (hourly : Series) (sid : String) (prevKey currKey : String) : Bool :=
  match (lookupS sid ((lookupS prevKey hourly).getD [])).bind Reading.outbound_bytes,
      (lookupS sid ((lookupS currKey hourly).getD [])).bind Reading.outbound_bytes with
  | some po, some co => decide (co < po)
  | _, _ => false

/-- Transition loop of `_compute_cycle_data` for one server id: walks the
adjacent hour-key pairs carrying the running cycle cumulative, cycle age
and the lazily-resolved display name, and emits one point per transition
plus the recorded rebuild hours.  Requantization after each addition is
the identity on milli-TB integers. -/
def cyclePointsAux (hourly : Series) (sid : String) :
    List (String × String) → Nat → Nat → Option String →
    List CyclePoint × List String × Option String
  | [], _, _, name => ([], [], name)
  | (prevKey, currKey) :: rest, cycleOut, cycleAge, name =>
    let currData := lookupS sid ((lookupS currKey hourly).getD [])
    let name1 : Option String :=
      match currData, name with
      | some d, none => some (d.name.getD sid)
      | _, _ => name
    let rebuild := cycleRebuild hourly sid prevKey currKey
    let cycleOut1 := if rebuild then 0 else cycleOut
    let cycleAge1 := if rebuild then 0 else cycleAge
    let totalOut := cycleTotalOut hourly sid prevKey currKey
    let cycleOut2 := cycleOut1 + totalOut
    let pt : CyclePoint := ⟨currKey, totalOut, cycleOut2, cycleAge1, parse_hour currKey⟩
    let r := cyclePointsAux hourly sid rest cycleOut2 (cycleAge1 + 1) name1
    (pt :: r.1, (if rebuild then currKey :: r.2.1 else r.2.1), r.2.2)

/-- Working set of server ids of `_compute_cycle_data`: all ids seen
anywhere in the series, optionally filtered to `include_ids` (an empty
filter set is falsy in Python and disables filtering). -/
def cycleServerIds (hourly : Series) (include_ids : List String) : List String :=
  let ids0 := (hourly.foldl (fun acc p => acc ++ p.2.map Prod.fst) []).dedup
  if include_ids = [] then ids0 else ids0.filter (fun sid => sid ∈ include_ids)

/-- One server's result slot of `_compute_cycle_data`: the point/rebuild
lists from the transition walk, kept only when points were emitted, under
the resolved display name (`name or str(sid)` at the end of the loop). -/
def cycleEntry (hourly : Series) (pairs : List (String × String))
    (name_map : List (String × String)) (sid : String) : Option ServerCycle :=
  let r := cyclePointsAux hourly sid pairs 0 0 (lookupS sid name_map)
  if r.1 = [] then none else some ⟨(r.2.2).getD sid, r.1, r.2.1⟩

/-- Model of `_compute_cycle_data(hourly, include_ids, name_map)`; an
empty `name_map` list models the falsy `None`/empty mapping. -/
def compute_cycle_data (hourly : Series) (include_ids : List String)
    (name_map : List (String × String)) : List (String × ServerCycle) :=
  if (sortKeys (hourly.map Prod.fst)).length < 2 then []
  else
    (cycleServerIds hourly include_ids).filterMap (fun sid =>
      (cycleEntry hourly
        ((sortKeys (hourly.map Prod.fst)).zip (sortKeys (hourly.map Prod.fst)).tail)
        name_map sid).map (fun v => (sid, v)))

/-- Model of `_record_hourly_snapshot`: the freshly collected snapshot is
passed as a value (the Python code collects it from the API client only
after the existence check); an existing bucket is never overwritten. -/
def record_hourly_snapshot (state : Series) (hour_key : String) (snapshot : Snapshot) :
    Series :=
  if (lookupS hour_key state).isSome then state else state ++ [(hour_key, snapshot)]

/-- One row of the daily report: a date and its two rendered TB figures. -/
structure DayRow where
  date : String
  outbound_tb : String
  inbound_tb : String
deriving Repr, DecidableEq

/-- One server block of the daily report. -/
structure ServerDaily where
  id : String
  name : String
  days : List DayRow
deriving Repr, DecidableEq

/-- Response of `api_daily`; the under-two-buckets early return carries
no `in_peak`/`in_total` keys, modelled as `none`. -/
structure DailyResult where
  days : List DayRow
  peak : String
  total : String
  in_peak : Option String
  in_total : Option String
  servers : List ServerDaily
deriving Repr, DecidableEq

/-- The four accumulator dicts of `api_daily`: per-date outbound and
inbound totals and the per-server-name per-date totals. -/
structure DailyMaps where
  dt : List (String × Nat)
  dit : List (String × Nat)
  ps : List (String × List (String × Nat))
  psi : List (String × List (String × Nat))
deriving Repr, DecidableEq

/-- Accumulation of one named delta aggregate into the daily maps, as the
inner loop of `api_daily` performs for one `(name, data)` pair. -/
def dailyEntryStep (dateKey : String) (m : DailyMaps) (p : String × DeltaEntry) :
    DailyMaps :=
  let m1 :=
    if p.2.has_out then
      { m with dt := updateA m.dt dateKey (· + p.2.out) 0,
               ps := updateA m.ps p.1 (fun inner => updateA inner dateKey (· + p.2.out) 0) [] }
    else m
  if p.2.has_in then
    { m1 with dit := updateA m1.dit dateKey (· + p.2.din) 0,
              psi := updateA m1.psi p.1 (fun inner => updateA inner dateKey (· + p.2.din) 0) [] }
  else m1

/-- Accumulation of one adjacent-hour transition into the daily maps:
the delta aggregates of the pair are attributed to the calendar date of
the later hour's bucket (transitions with an unusable key are skipped). -/
def dailyPairStep (hourly : Series) (m : DailyMaps) (pr : String × String) : DailyMaps :=
  match date_from_hour_key pr.2 with
  | none => m
  | some dateKey =>
    (delta_by_name ((lookupS pr.1 hourly).getD []) ((lookupS pr.2 hourly).getD [])).foldl
      (dailyEntryStep dateKey) m

/-- Daily maps accumulated over the whole sorted series. -/
def dailyMapsOf (hourly : Series) : DailyMaps :=
  let keys := sortKeys (hourly.map Prod.fst)
  (keys.zip keys.tail).foldl (dailyPairStep hourly) ⟨[], [], [], []⟩

/-- Sorted date keys of the per-date outbound totals dict. -/
def apiDayKeysAll (hourly : Series) : List String :=
  sortKeys ((dailyMapsOf hourly).dt.map Prod.fst)

/-- The most recent 35 of the outbound-data date keys (`day_keys[-35:]`). -/
def apiDayKeys (hourly : Series) : List String :=
  (apiDayKeysAll hourly).drop ((apiDayKeysAll hourly).length - 35)

/-- One global day row of `api_daily` for one date key. -/
def apiDayRow (hourly : Series) (d : String) : DayRow :=
  ⟨d, milliToStr ((lookupS d (dailyMapsOf hourly).dt).getD 0),
      milliToStr ((lookupS d (dailyMapsOf hourly).dit).getD 0)⟩

/-- The restricted day rows of `api_daily`. -/
def apiDays (hourly : Series) : List DayRow :=
  (apiDayKeys hourly).map (apiDayRow hourly)

/-- Peak single-day outbound total over the restricted window. -/
def apiPeak (hourly : Series) : Nat :=
  ((apiDayKeys hourly).map (fun d => (lookupS d (dailyMapsOf hourly).dt).getD 0)).foldl max 0

/-- Sum of outbound totals over the restricted window. -/
def apiTotal (hourly : Series) : Nat :=
  ((apiDayKeys hourly).map (fun d => (lookupS d (dailyMapsOf hourly).dt).getD 0)).foldl
    (· + ·) 0

/-- Peak single-day inbound total over the restricted window. -/
def apiInPeak (hourly : Series) : Nat :=
  ((apiDayKeys hourly).map (fun d => (lookupS d (dailyMapsOf hourly).dit).getD 0)).foldl max 0

/-- Sum of inbound totals over the restricted window. -/
def apiInTotal (hourly : Series) : Nat :=
  ((apiDayKeys hourly).map (fun d => (lookupS d (dailyMapsOf hourly).dit).getD 0)).foldl
    (· + ·) 0

/-- Per-server block of `api_daily` for one display name. -/
def apiServerRow (hourly : Series) (name : String) : ServerDaily :=
  ⟨name, name, (apiDayKeys hourly).map (fun d =>
    DayRow.mk d
      (milliToStr ((lookupS d ((lookupS name (dailyMapsOf hourly).ps).getD [])).getD 0))
      (milliToStr ((lookupS d ((lookupS name (dailyMapsOf hourly).psi).getD [])).getD 0)))⟩

/-- Model of the `api_daily` endpoint body (after authentication and
state loading): per-date totals, the most recent 35 outbound-data dates,
peaks and sums, and the per-server rows over those dates.  The Python
peak/total computation parses the rendered strings back into `Decimal`,
which is the identity on the underlying milli-TB integers, so peaks and
sums are taken on the integers here. -/
def api_daily (hourly : Series) : DailyResult :=
  if (sortKeys (hourly.map Prod.fst)).length < 2 then ⟨[], "0.000", "0.000", none, none, []⟩
  else
    ⟨apiDays hourly, milliToStr (apiPeak hourly), milliToStr (apiTotal hourly),
      some (milliToStr (apiInPeak hourly)), some (milliToStr (apiInTotal hourly)),
      (sortKeys ((dailyMapsOf hourly).ps.map Prod.fst)).map (apiServerRow hourly)⟩

/-! ### Order facts for the key comparison -/

lemma charListLe_total : ∀ a b : List Char, charListLe a b = true ∨ charListLe b a = true := by
  intro a
  induction a with
  | nil => intro b; left; rfl
  | cons x t ih =>
    intro b
    cases b with
    | nil => right; rfl
    | cons y s =>
      rcases Nat.lt_trichotomy x.toNat y.toNat with h | h | h
      · left; simp [charListLe, h]
      · have hyx : ¬y.toNat < x.toNat := by omega
        have hxy : ¬x.toNat < y.toNat := by omega
        rcases ih s with h1 | h1
        · left; simp [charListLe, hxy, hyx, h1]
        · right; simp [charListLe, hxy, hyx, h1]
      · right; simp [charListLe, h]

lemma charListLe_trans : ∀ a b c : List Char,
    charListLe a b = true → charListLe b c = true → charListLe a c = true := by
  intro a
  induction a with
  | nil => intro b c _ _; rfl
  | cons x t ih =>
    intro b c hab hbc
    cases b with
    | nil => exact absurd hab (by simp [charListLe])
    | cons y s =>
      cases c with
      | nil => exact absurd hbc (by simp [charListLe])
      | cons z u =>
        simp only [charListLe] at hab hbc ⊢
        by_cases h1 : x.toNat < y.toNat
        · by_cases h2 : y.toNat < z.toNat
          · simp [show x.toNat < z.toNat by omega]
          · by_cases h3 : z.toNat < y.toNat
            · simp [h2, h3] at hbc
            · simp [show x.toNat < z.toNat by omega]
        · by_cases h4 : y.toNat < x.toNat
          · simp [h1, h4] at hab
          · simp only [if_neg h1, if_neg h4] at hab
            by_cases h2 : y.toNat < z.toNat
            · simp [show x.toNat < z.toNat by omega]
            · by_cases h3 : z.toNat < y.toNat
              · simp [h2, h3] at hbc
              · simp only [if_neg h2, if_neg h3] at hbc
                have hxz1 : ¬x.toNat < z.toNat := by omega
                have hxz2 : ¬z.toNat < x.toNat := by omega
                simp only [if_neg hxz1, if_neg hxz2]
                exact ih s u hab hbc

lemma charListLe_antisymm : ∀ a b : List Char,
    charListLe a b = true → charListLe b a = true → a = b := by
  intro a
  induction a with
  | nil =>
    intro b _ hba
    cases b with
    | nil => rfl
    | cons y s => simp [charListLe] at hba
  | cons x t ih =>
    intro b hab hba
    cases b with
    | nil => simp [charListLe] at hab
    | cons y s =>
      simp only [charListLe] at hab hba
      by_cases h1 : x.toNat < y.toNat
      · have h2 : ¬y.toNat < x.toNat := by omega
        simp [h1, h2] at hba
      · by_cases h2 : y.toNat < x.toNat
        · simp [h1, h2] at hab
        · simp only [if_neg h1, if_neg h2] at hab
          simp only [if_neg h2, if_neg h1] at hba
          have hn : x.toNat = y.toNat := by omega
          have hxy : x = y := Char.eq_of_val_eq (UInt32.ext hn)
          rw [hxy, ih s hab hba]

instance : IsTotal String keyLE :=
  ⟨fun a b => charListLe_total a.data b.data⟩

instance : IsTrans String keyLE :=
  ⟨fun a b c hab hbc => charListLe_trans a.data b.data c.data hab hbc⟩

instance : IsAntisymm String keyLE :=
  ⟨fun a b hab hba => String.toList_inj.mp (charListLe_antisymm a.data b.data hab hba)⟩

/-! ### Sorting lemmas -/

lemma sortKeys_perm (l : List String) : (sortKeys l).Perm l :=
  List.perm_insertionSort keyLE l

lemma sortKeys_length (l : List String) : (sortKeys l).length = l.length :=
  List.length_insertionSort keyLE l

lemma sortKeys_mem {a : String} {l : List String} : a ∈ sortKeys l ↔ a ∈ l :=
  List.mem_insertionSort keyLE

lemma sortKeys_nodup {l : List String} (h : l.Nodup) : (sortKeys l).Nodup :=
  ((sortKeys_perm l).nodup_iff).mpr h

lemma sortKeys_sorted (l : List String) : (sortKeys l).Sorted keyLE :=
  List.sorted_insertionSort keyLE l

lemma sortKeys_congr {l1 l2 : List String} (h1 : l1.Nodup) (h2 : l2.Nodup)
    (h : ∀ a, a ∈ l1 ↔ a ∈ l2) : sortKeys l1 = sortKeys l2 := by
  have hperm : (sortKeys l1).Perm (sortKeys l2) :=
    ((sortKeys_perm l1).trans ((List.perm_ext_iff_of_nodup h1 h2).mpr h)).trans
      (sortKeys_perm l2).symm
  exact List.eq_of_perm_of_sorted hperm (sortKeys_sorted l1) (sortKeys_sorted l2)

lemma zip_tail_map_snd (l : List String) : (l.zip l.tail).map Prod.snd = l.tail := by
  induction l with
  | nil => rfl
  | cons x t ih =>
    cases t with
    | nil => rfl
    | cons y s => simpa using ih

lemma zip_tail_length (l : List String) : (l.zip l.tail).length = l.length - 1 := by
  simp [List.length_zip]

/-! ### Association-list lemmas -/

lemma lookupS_eq_none {l : List (String × α)} {k : String} :
    lookupS k l = none ↔ k ∉ l.map Prod.fst := by
  induction l with
  | nil => simp [lookupS]
  | cons p t ih =>
    by_cases h : p.1 = k
    · simp [lookupS, h]
    · simp [lookupS, h, ih, Ne.symm h]

lemma lookupS_updateA (l : List (String × α)) (k n : String) (f : α → α) (d : α) :
    lookupS n (updateA l k f d) =
      if k = n then some (f ((lookupS k l).getD d)) else lookupS n l := by
  induction l with
  | nil => by_cases h : k = n <;> simp [lookupS, updateA, h]
  | cons p t ih =>
    by_cases h1 : p.1 = k
    · by_cases h2 : k = n
      · have h3 : p.1 = n := h1.trans h2
        simp [updateA, lookupS, h1, h2, h3]
      · have h3 : ¬p.1 = n := fun hc => h2 (h1.symm.trans hc)
        simp [updateA, lookupS, h1, h2, h3]
    · by_cases h2 : p.1 = n
      · have h3 : ¬k = n := fun hc => h1 (h2.trans hc.symm)
        have h4 : ¬n = k := fun hc => h3 hc.symm
        simp [updateA, lookupS, h1, h2, h3, h4]
      · simp [updateA, lookupS, h1, h2, ih]

lemma updateA_map_fst (l : List (String × α)) (k : String) (f : α → α) (d : α) :
    (updateA l k f d).map Prod.fst =
      if k ∈ l.map Prod.fst then l.map Prod.fst else l.map Prod.fst ++ [k] := by
  induction l with
  | nil => simp [updateA]
  | cons p t ih =>
    by_cases h : p.1 = k
    · simp [updateA, h]
    · have : ¬k = p.1 := fun hc => h hc.symm
      by_cases hm : k ∈ t.map Prod.fst <;> simp [updateA, h, ih, this, hm]

/-! ### Generic dict-accumulation folds -/

/-- Fold of per-element `setdefault`-and-mutate updates over a dict. -/
def updFold (key : β → String) (upd : β → α → α) (dflt : String → α)
    (agg : List (String × α)) (xs : List β) : List (String × α) :=
  xs.foldl (fun a x => updateA a (key x) (upd x) (dflt (key x))) agg

lemma lookupS_updFold (key : β → String) (upd : β → α → α) (dflt : String → α) :
    ∀ (xs : List β) (agg : List (String × α)) (n : String),
    lookupS n (updFold key upd dflt agg xs) =
      match lookupS n agg with
      | some v => some ((xs.filter (fun x => decide (key x = n))).foldl (fun a x => upd x a) v)
      | none =>
        if (xs.filter (fun x => decide (key x = n))).isEmpty then none
        else some ((xs.filter (fun x => decide (key x = n))).foldl
          (fun a x => upd x a) (dflt n)) := by
  intro xs
  induction xs with
  | nil =>
    intro agg n
    cases h : lookupS n agg <;> simp [updFold, h]
  | cons x t ih =>
    intro agg n
    have hstep : updFold key upd dflt agg (x :: t) =
        updFold key upd dflt (updateA agg (key x) (upd x) (dflt (key x))) t := rfl
    rw [hstep, ih]
    rw [lookupS_updateA]
    by_cases h : key x = n
    · subst h
      cases hagg : lookupS (key x) agg <;> simp [hagg, List.filter_cons]
    · cases hagg : lookupS n agg <;> simp [hagg, List.filter_cons, h]


/-! ### Optional-sum lemmas -/

/-- Summary of repeated `_sum_optional` accumulation, phrased as the spec
describes it: `None` when every contribution is `None`, otherwise the sum
of the present contributions. -/
def specOptSum (l : List (Option Nat)) : Option Nat :=
  if l.all Option.isNone then none else some ((l.filterMap id).sum)

lemma sum_optional_none_left (x : Option Nat) : sum_optional none x = x := by
  cases x <;> rfl

lemma sum_optional_none_right (x : Option Nat) : sum_optional x none = x := by
  cases x <;> rfl

lemma sum_optional_assoc (a b c : Option Nat) :
    sum_optional (sum_optional a b) c = sum_optional a (sum_optional b c) := by
  cases a <;> cases b <;> cases c <;> simp [sum_optional, Nat.add_assoc]

lemma all_isNone_filterMap {l : List (Option Nat)} (h : l.all Option.isNone = true) :
    l.filterMap id = [] := by
  induction l with
  | nil => rfl
  | cons x t ih =>
    cases x with
    | none =>
      have h2 : t.all Option.isNone = true := by
        rw [List.all_cons, Bool.and_eq_true] at h
        exact h.2
      rw [List.filterMap_cons]
      simpa using ih h2
    | some v => simp at h

lemma specOptSum_cons (x : Option Nat) (t : List (Option Nat)) :
    specOptSum (x :: t) = sum_optional x (specOptSum t) := by
  cases x with
  | none => simp [specOptSum, sum_optional_none_left]
  | some v =>
    by_cases h : t.all Option.isNone
    · simp [specOptSum, h, sum_optional, all_isNone_filterMap h]
    · simp [specOptSum, h, sum_optional]

/-! ### Characterization of the merge and delta folds -/

lemma merge_eq_updFold (s : Snapshot) :
    merge_hourly_snapshot s =
      updFold (fun p => mergeName p.1 p.2) (fun p e => applyMerge p.2 e)
        (fun k => ⟨k, none, none⟩) [] s := rfl

lemma delta_by_name_eq_updFold (prev curr : Snapshot) :
    delta_by_name prev curr =
      updFold (fun p => deltaName prev p.1 p.2) (fun p e => applyDeltas prev p.1 p.2 e)
        (fun _ => ⟨0, 0, false, false⟩) [] curr := rfl

lemma foldl_applyMerge :
    ∀ (l : List (String × Reading)) (e : MergedEntry),
    l.foldl (fun e p => applyMerge p.2 e) e =
      ⟨e.name,
       sum_optional e.outbound_bytes (specOptSum (l.map (fun p => p.2.outbound_bytes))),
       sum_optional e.inbound_bytes (specOptSum (l.map (fun p => p.2.inbound_bytes)))⟩ := by
  intro l
  induction l with
  | nil =>
    intro e
    simp [specOptSum, sum_optional_none_right]
  | cons p t ih =>
    intro e
    rw [List.foldl_cons, ih]
    simp [applyMerge, specOptSum_cons, sum_optional_assoc]

lemma foldl_applyDeltas (prev : Snapshot) :
    ∀ (l : List (String × Reading)) (e : DeltaEntry),
    l.foldl (fun e p => applyDeltas prev p.1 p.2 e) e =
      ⟨e.out + (l.map (fun p => (outDeltaOf prev p.1 p.2).getD 0)).sum,
       e.din + (l.map (fun p => (inDeltaOf prev p.1 p.2).getD 0)).sum,
       e.has_out || l.any (fun p => (outDeltaOf prev p.1 p.2).isSome),
       e.has_in || l.any (fun p => (inDeltaOf prev p.1 p.2).isSome)⟩ := by
  intro l
  induction l with
  | nil => intro e; simp
  | cons p t ih =>
    intro e
    rw [List.foldl_cons, ih]
    have happ : applyDeltas prev p.1 p.2 e =
        ⟨e.out + (outDeltaOf prev p.1 p.2).getD 0,
         e.din + (inDeltaOf prev p.1 p.2).getD 0,
         e.has_out || (outDeltaOf prev p.1 p.2).isSome,
         e.has_in || (inDeltaOf prev p.1 p.2).isSome⟩ := by
      cases ho : outDeltaOf prev p.1 p.2 <;> cases hi : inDeltaOf prev p.1 p.2 <;>
        simp [applyDeltas, ho, hi]
    rw [happ]
    simp [Nat.add_assoc, Bool.or_assoc]

lemma lookupS_delta_by_name (prev curr : Snapshot) (n : String) :
    lookupS n (delta_by_name prev curr) =
      if (curr.filter (fun p => decide (deltaName prev p.1 p.2 = n))).isEmpty then none
      else some ((curr.filter (fun p => decide (deltaName prev p.1 p.2 = n))).foldl
        (fun e p => applyDeltas prev p.1 p.2 e) ⟨0, 0, false, false⟩) := by
  rw [delta_by_name_eq_updFold, lookupS_updFold]
  rfl

lemma lookupS_merge (s : Snapshot) (n : String) :
    lookupS n (merge_hourly_snapshot s) =
      if (s.filter (fun p => decide (mergeName p.1 p.2 = n))).isEmpty then none
      else some ((s.filter (fun p => decide (mergeName p.1 p.2 = n))).foldl
        (fun e p => applyMerge p.2 e) ⟨n, none, none⟩) := by
  rw [merge_eq_updFold, lookupS_updFold]
  rfl

/-! ### Concrete inputs used by the claim theorems -/

/-- Three-hour series with outbound readings 5 TB, 1 TB, 2 TB for id 1. -/
def seriesC1 : Series :=
  [("2024-01-01 00:00", [("1", ⟨none, some 5497558138880, none⟩)]),
   ("2024-01-01 01:00", [("1", ⟨none, some 1099511627776, none⟩)]),
   ("2024-01-01 02:00", [("1", ⟨none, some 2199023255552, none⟩)])]

/-- Previous snapshot with two identifiers sharing display name n. -/
def prevC2 : Snapshot :=
  [("A", ⟨some "n", some 100, none⟩), ("B", ⟨some "n", some 0, none⟩)]

/-- Current snapshot where id A decreased while id B increased by 1 TiB. -/
def currC2 : Snapshot :=
  [("A", ⟨some "n", some 50, none⟩), ("B", ⟨some "n", some 1099511627776, none⟩)]

/-- Two-hour series used for the tracking-window future-start scenario. -/
def seriesC4 : Series :=
  [("2024-01-01 00:00", [("1", ⟨some "srv", some 0, none⟩)]),
   ("2024-01-01 01:00", [("1", ⟨some "srv", some 1099511627776, none⟩)])]

/-- Snapshot with two identifiers sharing a name, readings one-sided. -/
def snapC5 : Snapshot :=
  [("A", ⟨some "n", some 100, none⟩), ("B", ⟨some "n", none, some 50⟩)]

/-! ### Claim theorems -/

/-- C1: on the three-bucket series with outbound readings 5 TB, 1 TB,
2 TB for one identifier, the cycle accounting engine records the second
hour as a rebuild, resets the running cumulative to 0.000 at that hour,
and reports a cycle cumulative of 1.000 TB (1000 milli-TB) at the third
hour. -/
theorem claim_C1 :
    compute_cycle_data seriesC1 [] [] =
      [("1", ⟨"1",
        [⟨"2024-01-01 01:00", 0, 0, 0, some 1⟩,
         ⟨"2024-01-01 02:00", 1000, 1000, 1, some 2⟩],
        ["2024-01-01 01:00"]⟩)] := by decide

/-- C2 counterexample: snapshots where identifier A's outbound counter
strictly decreases (100 to 50) while identifier B, resolving to the same
display name n, increases; the delta engine nonetheless reports
`has_out = true` for name n, contradicting the claim that every reading
with a decreased counter yields `has_outbound = False` for its name. -/
theorem claim_C2_counterexample :
    lookupS "A" prevC2 = some ⟨some "n", some 100, none⟩ ∧
    lookupS "A" currC2 = some ⟨some "n", some 50, none⟩ ∧
    deltaName prevC2 "A" ⟨some "n", some 50, none⟩ = "n" ∧
    (lookupS "n" (delta_by_name prevC2 currC2)).map DeltaEntry.has_out = some true := by
  decide

/-- C2 (amended): per identifier, an outbound delta is computable iff
both readings are present and the later one is at least the earlier one
(analogously inbound); the aggregate for a display name sums the
computable per-identifier deltas of that name and sets `has_out` iff at
least one of them is computable — so a decreased reading contributes
nothing, and its name reports `has_out = false` unless another
identifier sharing the name has a computable delta.  Deltas are sums of
half-up-rounded non-negative differences, never negative. -/
theorem claim_C2_amended (prev curr : Snapshot) (n sid : String) (r : Reading) :
    (lookupS n (delta_by_name prev curr) =
      if (curr.filter (fun p => decide (deltaName prev p.1 p.2 = n))).isEmpty then none
      else some
        ⟨((curr.filter (fun p => decide (deltaName prev p.1 p.2 = n))).map
            (fun p => (outDeltaOf prev p.1 p.2).getD 0)).sum,
         ((curr.filter (fun p => decide (deltaName prev p.1 p.2 = n))).map
            (fun p => (inDeltaOf prev p.1 p.2).getD 0)).sum,
         (curr.filter (fun p => decide (deltaName prev p.1 p.2 = n))).any
            (fun p => (outDeltaOf prev p.1 p.2).isSome),
         (curr.filter (fun p => decide (deltaName prev p.1 p.2 = n))).any
            (fun p => (inDeltaOf prev p.1 p.2).isSome)⟩) ∧
    ((outDeltaOf prev sid r).isSome = true ↔
      ∃ po co, (lookupS sid prev).bind Reading.outbound_bytes = some po ∧
        r.outbound_bytes = some co ∧ po ≤ co) ∧
    ((inDeltaOf prev sid r).isSome = true ↔
      ∃ qo ci, (lookupS sid prev).bind Reading.inbound_bytes = some qo ∧
        r.inbound_bytes = some ci ∧ qo ≤ ci) := by
  refine ⟨?_, ?_, ?_⟩
  · rw [lookupS_delta_by_name]
    by_cases hemp : (curr.filter (fun p => decide (deltaName prev p.1 p.2 = n))).isEmpty
    · simp [hemp]
    · simp only [hemp, Bool.false_eq_true, if_false]
      rw [foldl_applyDeltas]
      simp
  · cases hp : (lookupS sid prev).bind Reading.outbound_bytes with
    | none => simp [outDeltaOf, hp]
    | some po =>
      cases hc : r.outbound_bytes with
      | none => simp [outDeltaOf, hp, hc]
      | some co =>
        by_cases hle : po ≤ co <;> simp [outDeltaOf, hp, hc, hle]
  · cases hp : (lookupS sid prev).bind Reading.inbound_bytes with
    | none => simp [inDeltaOf, hp]
    | some qo =>
      cases hc : r.inbound_bytes with
      | none => simp [inDeltaOf, hp, hc]
      | some ci =>
        by_cases hle : qo ≤ ci <;> simp [inDeltaOf, hp, hc, hle]

/-- C3: the delta engine on the 0-to-1-TiB two-bucket scenario reports a
computable outbound delta of exactly 1.000 TB (1000 milli-TB); every
milli-TB figure produced by `bytes_to_tb` is the half-up rounding of the
exact byte value divided by 1024^4 (stated by the floor bounds of the
half-up quotient); and every rendered TB string carries exactly three
fractional digits. -/
theorem claim_C3 :
    (lookupS "srv" (delta_by_name [("1", ⟨some "srv", some 0, none⟩)]
        [("1", ⟨some "srv", some 1099511627776, none⟩)]) =
      some ⟨1000, 0, true, false⟩) ∧
    (∀ b : Nat, 2 ^ 41 * bytes_to_tb b ≤ 2000 * b + 2 ^ 40 ∧
      2000 * b + 2 ^ 40 < 2 ^ 41 * (bytes_to_tb b + 1)) ∧
    (∀ n : Nat, milliToStr n = Nat.repr (n / 1000) ++ "." ++ pad3 (n % 1000) ∧
      (pad3 (n % 1000)).length = 3) := by
  refine ⟨by decide, ?_, ?_⟩
  · intro b
    unfold bytes_to_tb
    omega
  · intro n
    exact ⟨rfl, rfl⟩

/-- C4 counterexample: on the completely empty series with a start
override beyond any bucket, the tracking-totals computation labels the
zero result with `start = None`, not with the override, refuting the
claim's universal quantification over every snapshot series. -/
theorem claim_C4_counterexample :
    (compute_tracking_totals [] (some "2024-06-01 00:00")).start = none ∧
    (compute_tracking_totals [] (some "2024-06-01 00:00")).start ≠
      some "2024-06-01 00:00" := by
  decide

/-- C4 (amended): for every nonempty snapshot series and every start
override that no bucket key reaches or exceeds, the tracking-totals
computation returns zero totals labeled with that start. -/
theorem claim_C4_amended (hourly : Series) (ov : String) (hne : hourly ≠ [])
    (hall : ∀ k ∈ hourly.map Prod.fst, keyLe ov k = false) :
    compute_tracking_totals hourly (some ov) = ⟨some ov, "0.000", "0.000"⟩ := by
  unfold compute_tracking_totals
  split
  · rename_i hnil
    exfalso
    have hlen := sortKeys_length (hourly.map Prod.fst)
    rw [hnil] at hlen
    cases hourly with
    | nil => exact hne rfl
    | cons p t => simp at hlen
  · rename_i k0 rest hcons
    have hfind : (sortKeys (hourly.map Prod.fst)).findIdx? (fun k => keyLe ov k) = none := by
      rw [List.findIdx?_eq_none_iff]
      intro x hx
      exact hall x (sortKeys_mem.mp hx)
    simp [hfind]

/-- C4 witness: the claim's concrete scenario, a two-hour January 2024
series with a June 2024 start override, yields zero totals labeled with
the override. -/
theorem claim_C4_witness :
    compute_tracking_totals seriesC4 (some "2024-06-01 00:00") =
      ⟨some "2024-06-01 00:00", "0.000", "0.000"⟩ :=
  claim_C4_amended seriesC4 "2024-06-01 00:00" (by decide) (by decide)

/-- C5: the merge-by-name engine keys each hour's snapshot by resolved
display name; a name is present in the merged output iff some identifier
of the snapshot resolves to it, and each direction of its entry is the
`_sum_optional` aggregate of the contributing readings — `None` exactly
when all contributions are `None`, otherwise the sum of the present
ones.  In particular merging readings of 100 bytes out / `None` in and
`None` out / 50 bytes in under one name yields 100 out and 50 in. -/
theorem claim_C5 (s : Snapshot) (n : String) :
    (lookupS n (merge_hourly_snapshot s) =
      if (s.filter (fun p => decide (mergeName p.1 p.2 = n))).isEmpty then none
      else some
        ⟨n,
         specOptSum ((s.filter (fun p => decide (mergeName p.1 p.2 = n))).map
            (fun p => p.2.outbound_bytes)),
         specOptSum ((s.filter (fun p => decide (mergeName p.1 p.2 = n))).map
            (fun p => p.2.inbound_bytes))⟩) ∧
    merge_hourly_snapshot snapC5 = [("n", ⟨"n", some 100, some 50⟩)] := by
  refine ⟨?_, by decide⟩
  rw [lookupS_merge]
  by_cases hemp : (s.filter (fun p => decide (mergeName p.1 p.2 = n))).isEmpty
  · simp [hemp]
  · simp only [hemp, Bool.false_eq_true, if_false]
    rw [foldl_applyMerge]
    simp [sum_optional_none_left]

/-- C9: recording a snapshot for an hour bucket already present in the
series leaves the whole series unchanged — the insertion is skipped and
no bucket is ever overwritten. -/
theorem claim_C9 (state : Series) (hour_key : String) (snapshot : Snapshot)
    (h : hour_key ∈ state.map Prod.fst) :
    record_hourly_snapshot state hour_key snapshot = state := by
  unfold record_hourly_snapshot
  cases hl : lookupS hour_key state with
  | none => exact absurd h (lookupS_eq_none.mp hl)
  | some v => simp [hl]

/-- C9 witness: re-recording the already present bucket of a concrete
one-bucket series leaves the series unchanged. -/
theorem claim_C9_witness :
    record_hourly_snapshot [("2024-01-01 00:00", [])] "2024-01-01 00:00"
      [("1", ⟨some "srv", some 5, some 5⟩)] = [("2024-01-01 00:00", [])] :=
  claim_C9 [("2024-01-01 00:00", [])] "2024-01-01 00:00"
    [("1", ⟨some "srv", some 5, some 5⟩)] (by decide)

/-- C10: on a completely empty snapshot series the tracking-totals
computation returns `start = None` and the string totals 0.000/0.000,
whatever start override is supplied. -/
theorem claim_C10 (start_override : Option String) :
    compute_tracking_totals [] start_override = ⟨none, "0.000", "0.000"⟩ := rfl

/-! ### Cycle-walk lemmas -/

lemma cyclePointsAux_map_time (hourly : Series) (sid : String) :
    ∀ (pairs : List (String × String)) (cOut cAge : Nat) (nm : Option String),
    ((cyclePointsAux hourly sid pairs cOut cAge nm).1).map CyclePoint.time =
      pairs.map Prod.snd := by
  intro pairs
  induction pairs with
  | nil => intro cOut cAge nm; rfl
  | cons pr rest ih =>
    intro cOut cAge nm
    cases pr with
    | mk prevKey currKey => simp [cyclePointsAux, ih]

lemma cyclePointsAux_length (hourly : Series) (sid : String)
    (pairs : List (String × String)) (cOut cAge : Nat) (nm : Option String) :
    ((cyclePointsAux hourly sid pairs cOut cAge nm).1).length = pairs.length := by
  have h := congrArg List.length (cyclePointsAux_map_time hourly sid pairs cOut cAge nm)
  simpa using h

lemma cyclePointsAux_out (hourly : Series) (sid : String) :
    ∀ (pairs : List (String × String)) (cOut cAge : Nat) (nm : Option String),
    (pairs.map Prod.snd).Nodup →
    ∀ pt ∈ (cyclePointsAux hourly sid pairs cOut cAge nm).1,
    ∀ pr ∈ pairs, pt.time = pr.2 →
    pt.out_tb_h = cycleTotalOut hourly sid pr.1 pr.2 := by
  intro pairs
  induction pairs with
  | nil => intro _ _ _ _ pt hpt; simp [cyclePointsAux] at hpt
  | cons pr0 rest ih =>
    intro cOut cAge nm hnd pt hpt pr hpr htime
    rw [List.map_cons] at hnd
    obtain ⟨h0, hndr⟩ := List.nodup_cons.mp hnd
    rcases List.mem_cons.mp hpt with hpt0 | hptr
    · rcases List.mem_cons.mp hpr with hpr0 | hprr
      · subst hpr0
        rw [hpt0]
      · exfalso
        have ht0 : pt.time = pr0.2 := by rw [hpt0]
        have hsnd : pr.2 = pr0.2 := by rw [← htime, ht0]
        apply h0
        rw [← hsnd]
        exact List.mem_map_of_mem Prod.snd hprr
    · rcases List.mem_cons.mp hpr with hpr0 | hprr
      · exfalso
        have hmem0 := List.mem_map_of_mem CyclePoint.time hptr
        rw [cyclePointsAux_map_time] at hmem0
        apply h0
        have ht0 : pt.time = pr0.2 := by rw [htime, hpr0]
        rw [← ht0]
        exact hmem0
      · exact ih _ _ _ hndr pt hptr pr hprr htime

lemma cyclePointsAux_name_some (hourly : Series) (sid : String) :
    ∀ (pairs : List (String × String)) (cOut cAge : Nat) (n0 : String),
    (cyclePointsAux hourly sid pairs cOut cAge (some n0)).2.2 = some n0 := by
  intro pairs
  induction pairs with
  | nil => intro cOut cAge n0; rfl
  | cons pr rest ih =>
    intro cOut cAge n0
    cases pr with
    | mk prevKey currKey =>
      simp only [cyclePointsAux]
      cases lookupS sid ((lookupS currKey hourly).getD []) <;> exact ih _ _ _

lemma cyclePointsAux_name_none (hourly : Series) (sid : String) :
    ∀ (pairs : List (String × String)) (cOut cAge : Nat),
    (cyclePointsAux hourly sid pairs cOut cAge none).2.2 =
      (pairs.findSome? (fun pr => lookupS sid ((lookupS pr.2 hourly).getD []))).map
        (fun r => r.name.getD sid) := by
  intro pairs
  induction pairs with
  | nil => intro cOut cAge; rfl
  | cons pr rest ih =>
    intro cOut cAge
    cases pr with
    | mk prevKey currKey =>
      rw [List.findSome?_cons]
      cases hc : lookupS sid ((lookupS currKey hourly).getD []) with
      | none =>
        simp only [cyclePointsAux, hc]
        exact ih _ _
      | some d =>
        simp only [cyclePointsAux, hc]
        exact cyclePointsAux_name_some hourly sid rest _ _ _

lemma cycleServerIds_nodup (hourly : Series) (inc : List String) :
    (cycleServerIds hourly inc).Nodup := by
  unfold cycleServerIds
  by_cases h : inc = []
  · simp [h, List.nodup_dedup]
  · simp [h, List.Nodup.filter _ (List.nodup_dedup _)]

lemma mem_fst_filterMap_entry {ids : List String} {g : String → Option γ} {k : String}
    (h : k ∈ (ids.filterMap (fun s => (g s).map (fun v => (s, v)))).map Prod.fst) :
    k ∈ ids := by
  rcases List.mem_map.mp h with ⟨p, hp, hk⟩
  rcases List.mem_filterMap.mp hp with ⟨a, ha, hga⟩
  cases hg : g a with
  | none => rw [hg] at hga; simp at hga
  | some v =>
    rw [hg] at hga
    have hga2 : (a, v) = p := by simpa using hga
    rw [← hk, ← hga2]
    exact ha

lemma lookupS_filterMap_entry {ids : List String} (hnd : ids.Nodup)
    (g : String → Option γ) (sid : String) :
    lookupS sid (ids.filterMap (fun s => (g s).map (fun v => (s, v)))) =
      if sid ∈ ids then g sid else none := by
  induction ids with
  | nil => simp [lookupS]
  | cons s t ih =>
    obtain ⟨hs, hndt⟩ := List.nodup_cons.mp hnd
    cases hg : g s with
    | none =>
      by_cases hmem : sid = s
      · subst hmem
        have hnone : lookupS sid (t.filterMap (fun s => (g s).map (fun v => (s, v)))) = none := by
          rw [lookupS_eq_none]
          intro hc
          exact hs (mem_fst_filterMap_entry hc)
        simp [List.filterMap_cons, hg, hnone, hs, ih hndt]
      · have : ¬s = sid := fun hc => hmem hc.symm
        simp [List.filterMap_cons, hg, ih hndt, hmem]
    | some v =>
      by_cases hmem : sid = s
      · subst hmem
        simp [List.filterMap_cons, hg, lookupS]
      · have hne : ¬s = sid := fun hc => hmem hc.symm
        simp [List.filterMap_cons, hg, lookupS, hne, ih hndt, hmem]

lemma nodup_tail {l : List String} (h : l.Nodup) : l.tail.Nodup := by
  cases l with
  | nil => exact h
  | cons x t => exact (List.nodup_cons.mp h).2

lemma cycleEntry_eq_some (hourly : Series) (nm : List (String × String)) (sid : String)
    (pairs : List (String × String)) (hp : pairs ≠ []) :
    cycleEntry hourly pairs nm sid =
      some ⟨((cyclePointsAux hourly sid pairs 0 0 (lookupS sid nm)).2.2).getD sid,
            (cyclePointsAux hourly sid pairs 0 0 (lookupS sid nm)).1,
            (cyclePointsAux hourly sid pairs 0 0 (lookupS sid nm)).2.1⟩ := by
  unfold cycleEntry
  rw [if_neg]
  intro hc
  have hlen := cyclePointsAux_length hourly sid pairs 0 0 (lookupS sid nm)
  rw [hc] at hlen
  exact hp (List.eq_nil_of_length_eq_zero hlen.symm)

lemma lookupS_compute_cycle_of_two (hourly : Series) (inc : List String)
    (nm : List (String × String)) (sid : String)
    (h2 : 2 ≤ (sortKeys (hourly.map Prod.fst)).length) :
    lookupS sid (compute_cycle_data hourly inc nm) =
      if sid ∈ cycleServerIds hourly inc then
        cycleEntry hourly
          ((sortKeys (hourly.map Prod.fst)).zip (sortKeys (hourly.map Prod.fst)).tail)
          nm sid
      else none := by
  unfold compute_cycle_data
  rw [if_neg (by omega)]
  exact lookupS_filterMap_entry (cycleServerIds_nodup hourly inc) _ sid

/-- Display-name resolution of the cycle engine, as the code performs
it: the override map entry when present, otherwise the name attached to
the identifier's reading at the first transition-target bucket (the
second and later sorted buckets) where the identifier has a reading
(falling back to the identifier when that reading's name is null),
otherwise the identifier string itself. -/
def resolvedCycleName (nm : List (String × String)) (hourly : Series) (sid : String) :
    String :=
  match lookupS sid nm with
  | some n => n
  | none =>
    match (sortKeys (hourly.map Prod.fst)).tail.findSome?
        (fun k => lookupS sid ((lookupS k hourly).getD [])) with
    | some r => r.name.getD sid
    | none => sid

/-- Two-bucket series where the identifier's reading carries the name
srv in the first bucket but a null name in the second. -/
def seriesC7 : Series :=
  [("2024-01-01 00:00", [("1", ⟨some "srv", some 0, none⟩)]),
   ("2024-01-01 01:00", [("1", ⟨none, some 5, none⟩)])]

/-- Two-bucket series with named readings, used with an override map. -/
def seriesC7w : Series :=
  [("2024-01-01 00:00", [("1", ⟨some "a", some 0, none⟩)]),
   ("2024-01-01 01:00", [("1", ⟨some "b", some 0, none⟩)])]

/-- C6: with a properly keyed series (distinct hour buckets), the cycle
engine returns an empty result below two buckets; with n >= 2 buckets,
exactly the identifiers of the working set appear in the result, each
carrying one point per adjacent transition — n-1 points whose times are
the sorted bucket keys after the first, in order — with each point's
hourly figure equal to the delta credited at its transition; and that
credited figure is 0.000 whenever the delta engine reports no computable
outbound delta for the identifier there. -/
theorem claim_C6 (hourly : Series) (inc : List String) (nm : List (String × String))
    (hnd : (hourly.map Prod.fst).Nodup) :
    (hourly.length < 2 → compute_cycle_data hourly inc nm = []) ∧
    (2 ≤ hourly.length →
      ∀ sid,
        (sid ∉ cycleServerIds hourly inc →
          lookupS sid (compute_cycle_data hourly inc nm) = none) ∧
        (sid ∈ cycleServerIds hourly inc →
          ∃ e, lookupS sid (compute_cycle_data hourly inc nm) = some e ∧
            e.points.length = hourly.length - 1 ∧
            e.points.map CyclePoint.time = (sortKeys (hourly.map Prod.fst)).tail ∧
            (∀ pt ∈ e.points,
              ∀ pr ∈ (sortKeys (hourly.map Prod.fst)).zip
                  (sortKeys (hourly.map Prod.fst)).tail,
                pt.time = pr.2 → pt.out_tb_h = cycleTotalOut hourly sid pr.1 pr.2))) ∧
    (∀ sid prevKey currKey,
      (∀ e, lookupS sid (delta_by_name ((lookupS prevKey hourly).getD [])
          ((lookupS currKey hourly).getD [])) = some e → e.has_out = false) →
      cycleTotalOut hourly sid prevKey currKey = 0) := by
  have hklen : (sortKeys (hourly.map Prod.fst)).length = hourly.length := by
    rw [sortKeys_length, List.length_map]
  refine ⟨?_, ?_, ?_⟩
  · intro hlt
    unfold compute_cycle_data
    rw [if_pos (by omega)]
  · intro h2 sid
    have hpairs : ((sortKeys (hourly.map Prod.fst)).zip
        (sortKeys (hourly.map Prod.fst)).tail) ≠ [] := by
      apply List.ne_nil_of_length_pos
      rw [zip_tail_length]
      omega
    constructor
    · intro hnot
      rw [lookupS_compute_cycle_of_two hourly inc nm sid (by omega), if_neg hnot]
    · intro hmem
      rw [lookupS_compute_cycle_of_two hourly inc nm sid (by omega), if_pos hmem,
        cycleEntry_eq_some hourly nm sid _ hpairs]
      refine ⟨_, rfl, ?_, ?_, ?_⟩
      · rw [cyclePointsAux_length, zip_tail_length, hklen]
      · rw [cyclePointsAux_map_time, zip_tail_map_snd]
      · intro pt hpt pr hpr htime
        apply cyclePointsAux_out hourly sid _ 0 0 (lookupS sid nm) _ pt hpt pr hpr htime
        rw [zip_tail_map_snd]
        exact nodup_tail (sortKeys_nodup hnd)
  · intro sid prevKey currKey h
    unfold cycleTotalOut
    cases hl : lookupS sid (delta_by_name ((lookupS prevKey hourly).getD [])
        ((lookupS currKey hourly).getD [])) with
    | none => rfl
    | some e => simp [h e hl]

/-- C6 witness: the two-bucket restriction and the empty-result branch
on concrete series. -/
theorem claim_C6_witness :
    compute_cycle_data [("2024-01-01 00:00", [("1", ⟨some "srv", some 0, none⟩)])] [] [] =
      [] :=
  (claim_C6 [("2024-01-01 00:00", [("1", ⟨some "srv", some 0, none⟩)])] [] []
    (by decide)).1 (by decide)

/-- C7 counterexample: identifier 1 carries the non-null name srv at the
first bucket of the series and a null name later, with no override; the
claimed precedence picks srv, but the cycle engine reports the
identifier string 1, because its scan starts at the second bucket and a
null name there resolves to the identifier immediately and stickily. -/
theorem claim_C7_counterexample :
    (lookupS "1" ((lookupS "2024-01-01 00:00" seriesC7).getD [])).bind Reading.name =
      some "srv" ∧
    (lookupS "1" (compute_cycle_data seriesC7 [] [])).map ServerCycle.name = some "1" ∧
    (lookupS "1" (compute_cycle_data seriesC7 [] [])).map ServerCycle.name ≠
      some "srv" := by
  decide

/-- C7 (amended): every server entry of the cycle result carries the
display name resolved with this precedence: the override map entry for
the identifier when present, otherwise the name of the identifier's
reading at the first transition-target bucket (second and later sorted
buckets) where the identifier has a reading, with a null name there
resolving to the identifier string, otherwise the identifier string. -/
theorem claim_C7_amended (hourly : Series) (inc : List String)
    (nm : List (String × String)) (sid : String) (e : ServerCycle)
    (he : lookupS sid (compute_cycle_data hourly inc nm) = some e) :
    e.name = resolvedCycleName nm hourly sid := by
  by_cases h2 : 2 ≤ (sortKeys (hourly.map Prod.fst)).length
  · rw [lookupS_compute_cycle_of_two hourly inc nm sid h2] at he
    by_cases hmem : sid ∈ cycleServerIds hourly inc
    · rw [if_pos hmem] at he
      have hpairs : ((sortKeys (hourly.map Prod.fst)).zip
          (sortKeys (hourly.map Prod.fst)).tail) ≠ [] := by
        apply List.ne_nil_of_length_pos
        rw [zip_tail_length]
        omega
      rw [cycleEntry_eq_some hourly nm sid _ hpairs] at he
      have hename : e.name =
          ((cyclePointsAux hourly sid
            ((sortKeys (hourly.map Prod.fst)).zip (sortKeys (hourly.map Prod.fst)).tail)
            0 0 (lookupS sid nm)).2.2).getD sid := by
        rw [← Option.some_inj.mp he]
      rw [hename]
      unfold resolvedCycleName
      cases hn : lookupS sid nm with
      | some n0 =>
        rw [cyclePointsAux_name_some]
        rfl
      | none =>
        rw [cyclePointsAux_name_none]
        have hfs : (((sortKeys (hourly.map Prod.fst)).zip
              (sortKeys (hourly.map Prod.fst)).tail).findSome?
            (fun pr => lookupS sid ((lookupS pr.2 hourly).getD []))) =
            ((sortKeys (hourly.map Prod.fst)).tail.findSome?
              (fun k => lookupS sid ((lookupS k hourly).getD []))) := by
          conv_rhs => rw [← zip_tail_map_snd (sortKeys (hourly.map Prod.fst))]
          rw [List.findSome?_map]
          rfl
        rw [hfs]
        cases hr : (sortKeys (hourly.map Prod.fst)).tail.findSome?
            (fun k => lookupS sid ((lookupS k hourly).getD [])) with
        | none => rfl
        | some r => rfl
    · rw [if_neg hmem] at he
      exact absurd he (by simp)
  · exfalso
    have : compute_cycle_data hourly inc nm = [] := by
      unfold compute_cycle_data
      rw [if_pos (by omega)]
    rw [this] at he
    exact absurd he (by simp [lookupS])

/-- C7 witness: with an override map binding identifier 1 to ov, the
concrete cycle result's display name equals the resolved name ov. -/
theorem claim_C7_witness :
    (lookupS "1" (compute_cycle_data seriesC7w [] [("1", "ov")])).map ServerCycle.name =
      some (resolvedCycleName [("1", "ov")] seriesC7w "1") := by
  have he : lookupS "1" (compute_cycle_data seriesC7w [] [("1", "ov")]) =
      some ⟨"ov", [⟨"2024-01-01 01:00", 0, 0, 0, some 1⟩], []⟩ := by decide
  rw [he]
  exact congrArg some (claim_C7_amended seriesC7w [] [("1", "ov")] "1"
    ⟨"ov", [⟨"2024-01-01 01:00", 0, 0, 0, some 1⟩], []⟩ he)

/-! ### Daily-view characterization -/

/-- Adjacent sorted hour-key pairs of a series. -/
def specPairs (hourly : Series) : List (String × String) :=
  (sortKeys (hourly.map Prod.fst)).zip (sortKeys (hourly.map Prod.fst)).tail

/-- Delta aggregates of one transition. -/
def specDeltas (hourly : Series) (pr : String × String) : List (String × DeltaEntry) :=
  delta_by_name ((lookupS pr.1 hourly).getD []) ((lookupS pr.2 hourly).getD [])

/-- Total outbound milli-TB of the aggregates that carry a computable
outbound delta. -/
def entryOutSum (l : List (String × DeltaEntry)) : Nat :=
  ((l.filter (fun e => e.2.has_out)).map (fun e => e.2.out)).sum

/-- Whether any aggregate of a transition carries an outbound delta. -/
def entryHasOut (l : List (String × DeltaEntry)) : Bool :=
  l.any (fun e => e.2.has_out)

/-- Total inbound milli-TB of the aggregates that carry a computable
inbound delta. -/
def entryInSum (l : List (String × DeltaEntry)) : Nat :=
  ((l.filter (fun e => e.2.has_in)).map (fun e => e.2.din)).sum

/-- Whether any aggregate of a transition carries an inbound delta. -/
def entryInHas (l : List (String × DeltaEntry)) : Bool :=
  l.any (fun e => e.2.has_in)

/-- Whether some transition of the given run is attributed to date `d`
(its later hour key carries that date) and has outbound data. -/
def specHasOutOnPairs (hourly : Series) (pairs : List (String × String)) (d : String) :
    Bool :=
  pairs.any (fun pr =>
    decide (date_from_hour_key pr.2 = some d) && entryHasOut (specDeltas hourly pr))

/-- Outbound milli-TB attributed to date `d` over the given run: the sum
of the outbound aggregates of every transition whose later hour key
carries date `d`. -/
def specOutTotalOnPairs (hourly : Series) (pairs : List (String × String)) (d : String) :
    Nat :=
  ((pairs.filter (fun pr => decide (date_from_hour_key pr.2 = some d))).map
    (fun pr => entryOutSum (specDeltas hourly pr))).sum

/-- Inbound analogue of `specHasOutOnPairs`. -/
def specInHasOnPairs (hourly : Series) (pairs : List (String × String)) (d : String) :
    Bool :=
  pairs.any (fun pr =>
    decide (date_from_hour_key pr.2 = some d) && entryInHas (specDeltas hourly pr))

/-- Inbound analogue of `specOutTotalOnPairs`. -/
def specInTotalOnPairs (hourly : Series) (pairs : List (String × String)) (d : String) :
    Nat :=
  ((pairs.filter (fun pr => decide (date_from_hour_key pr.2 = some d))).map
    (fun pr => entryInSum (specDeltas hourly pr))).sum

/-- Whether date `d` has outbound data in the series. -/
def specHasOutOn (hourly : Series) (d : String) : Bool :=
  specHasOutOnPairs hourly (specPairs hourly) d

/-- Outbound milli-TB attributed to date `d` across the whole series. -/
def specOutTotalOn (hourly : Series) (d : String) : Nat :=
  specOutTotalOnPairs hourly (specPairs hourly) d

/-- Inbound analogue of `specHasOutOn`. -/
def specInHasOn (hourly : Series) (d : String) : Bool :=
  specInHasOnPairs hourly (specPairs hourly) d

/-- Inbound milli-TB attributed to date `d` across the whole series. -/
def specInTotalOn (hourly : Series) (d : String) : Nat :=
  specInTotalOnPairs hourly (specPairs hourly) d

/-- The dates with outbound data, as the spec words them: every
adjacent-hour transition's outbound aggregate is attributed to the
calendar date of the later hour's bucket. -/
def specOutDates (hourly : Series) : List String :=
  (((specPairs hourly).filter (fun pr => entryHasOut (specDeltas hourly pr))).filterMap
    (fun pr => date_from_hour_key pr.2)).dedup

lemma entryOutSum_of_not_has {l : List (String × DeltaEntry)}
    (h : entryHasOut l = false) : entryOutSum l = 0 := by
  unfold entryOutSum
  rw [List.filter_eq_nil_iff.mpr]
  · rfl
  · intro e he hc
    have h2 : l.any (fun e => e.2.has_out) = true := List.any_eq_true.mpr ⟨e, he, hc⟩
    have h3 : entryHasOut l = true := h2
    rw [h] at h3
    exact Bool.noConfusion h3

lemma entryInSum_of_not_has {l : List (String × DeltaEntry)}
    (h : entryInHas l = false) : entryInSum l = 0 := by
  unfold entryInSum
  rw [List.filter_eq_nil_iff.mpr]
  · rfl
  · intro e he hc
    have h2 : l.any (fun e => e.2.has_in) = true := List.any_eq_true.mpr ⟨e, he, hc⟩
    have h3 : entryInHas l = true := h2
    rw [h] at h3
    exact Bool.noConfusion h3

lemma dailyEntryStep_dt (dk : String) (m : DailyMaps) (e : String × DeltaEntry) :
    (dailyEntryStep dk m e).dt =
      if e.2.has_out then updateA m.dt dk (· + e.2.out) 0 else m.dt := by
  unfold dailyEntryStep
  by_cases ho : e.2.has_out <;> by_cases hi : e.2.has_in <;> simp [ho, hi]

lemma dailyEntryStep_dit (dk : String) (m : DailyMaps) (e : String × DeltaEntry) :
    (dailyEntryStep dk m e).dit =
      if e.2.has_in then updateA m.dit dk (· + e.2.din) 0 else m.dit := by
  unfold dailyEntryStep
  by_cases ho : e.2.has_out <;> by_cases hi : e.2.has_in <;> simp [ho, hi]

lemma entryHasOut_cons (e : String × DeltaEntry) (rest : List (String × DeltaEntry)) :
    entryHasOut (e :: rest) = (e.2.has_out || entryHasOut rest) := by
  simp [entryHasOut]

lemma entryInHas_cons (e : String × DeltaEntry) (rest : List (String × DeltaEntry)) :
    entryInHas (e :: rest) = (e.2.has_in || entryInHas rest) := by
  simp [entryInHas]

lemma entryOutSum_cons_pos {e : String × DeltaEntry} (rest : List (String × DeltaEntry))
    (ho : e.2.has_out = true) : entryOutSum (e :: rest) = e.2.out + entryOutSum rest := by
  unfold entryOutSum
  rw [List.filter_cons, if_pos ho]
  simp

lemma entryOutSum_cons_neg {e : String × DeltaEntry} (rest : List (String × DeltaEntry))
    (ho : e.2.has_out = false) : entryOutSum (e :: rest) = entryOutSum rest := by
  unfold entryOutSum
  rw [List.filter_cons, if_neg (by simp [ho])]

lemma entryInSum_cons_pos {e : String × DeltaEntry} (rest : List (String × DeltaEntry))
    (hi : e.2.has_in = true) : entryInSum (e :: rest) = e.2.din + entryInSum rest := by
  unfold entryInSum
  rw [List.filter_cons, if_pos hi]
  simp

lemma entryInSum_cons_neg {e : String × DeltaEntry} (rest : List (String × DeltaEntry))
    (hi : e.2.has_in = false) : entryInSum (e :: rest) = entryInSum rest := by
  unfold entryInSum
  rw [List.filter_cons, if_neg (by simp [hi])]

lemma dt_entryFold (dk : String) :
    ∀ (entries : List (String × DeltaEntry)) (m : DailyMaps) (d : String),
    lookupS d ((entries.foldl (dailyEntryStep dk) m).dt) =
      if d = dk ∧ entryHasOut entries = true then
        some (((lookupS d m.dt).getD 0) + entryOutSum entries)
      else lookupS d m.dt := by
  intro entries
  induction entries with
  | nil =>
    intro m d
    simp [entryHasOut]
  | cons e rest ih =>
    intro m d
    rw [List.foldl_cons, ih, dailyEntryStep_dt]
    by_cases ho : e.2.has_out = true
    · by_cases hd : d = dk
      · subst hd
        by_cases hrest : entryHasOut rest = true
        · simp [ho, hrest, lookupS_updateA, entryOutSum_cons_pos rest ho,
            entryHasOut_cons, Nat.add_assoc]
        · have hrest2 : entryHasOut rest = false := by
            cases hfv : entryHasOut rest
            · rfl
            · exact absurd hfv hrest
          simp [ho, hrest2, lookupS_updateA, entryOutSum_cons_pos rest ho,
            entryHasOut_cons, entryOutSum_of_not_has hrest2]
      · have hd2 : ¬dk = d := fun hc => hd hc.symm
        simp [ho, hd, hd2, lookupS_updateA, entryHasOut_cons]
    · have ho2 : e.2.has_out = false := by
        cases hfv : e.2.has_out
        · rfl
        · exact absurd hfv ho
      simp only [ho2, Bool.false_eq_true, if_false]
      simp [entryHasOut_cons, ho2, entryOutSum_cons_neg rest ho2]

lemma dit_entryFold (dk : String) :
    ∀ (entries : List (String × DeltaEntry)) (m : DailyMaps) (d : String),
    lookupS d ((entries.foldl (dailyEntryStep dk) m).dit) =
      if d = dk ∧ entryInHas entries = true then
        some (((lookupS d m.dit).getD 0) + entryInSum entries)
      else lookupS d m.dit := by
  intro entries
  induction entries with
  | nil =>
    intro m d
    simp [entryInHas]
  | cons e rest ih =>
    intro m d
    rw [List.foldl_cons, ih, dailyEntryStep_dit]
    by_cases hi : e.2.has_in = true
    · by_cases hd : d = dk
      · subst hd
        by_cases hrest : entryInHas rest = true
        · simp [hi, hrest, lookupS_updateA, entryInSum_cons_pos rest hi,
            entryInHas_cons, Nat.add_assoc]
        · have hrest2 : entryInHas rest = false := by
            cases hfv : entryInHas rest
            · rfl
            · exact absurd hfv hrest
          simp [hi, hrest2, lookupS_updateA, entryInSum_cons_pos rest hi,
            entryInHas_cons, entryInSum_of_not_has hrest2]
      · have hd2 : ¬dk = d := fun hc => hd hc.symm
        simp [hi, hd, hd2, lookupS_updateA, entryInHas_cons]
    · have hi2 : e.2.has_in = false := by
        cases hfv : e.2.has_in
        · rfl
        · exact absurd hfv hi
      simp only [hi2, Bool.false_eq_true, if_false]
      simp [entryInHas_cons, hi2, entryInSum_cons_neg rest hi2]

lemma dailyPairStep_of_none {hourly : Series} {m : DailyMaps} {pr : String × String}
    (hdate : date_from_hour_key pr.2 = none) : dailyPairStep hourly m pr = m := by
  unfold dailyPairStep
  rw [hdate]

lemma dailyPairStep_of_some {hourly : Series} {m : DailyMaps} {pr : String × String}
    {dk : String} (hdate : date_from_hour_key pr.2 = some dk) :
    dailyPairStep hourly m pr = (specDeltas hourly pr).foldl (dailyEntryStep dk) m := by
  unfold dailyPairStep specDeltas
  rw [hdate]

lemma specHasOutOnPairs_cons (hourly : Series) (pr : String × String)
    (rest : List (String × String)) (d : String) :
    specHasOutOnPairs hourly (pr :: rest) d =
      ((decide (date_from_hour_key pr.2 = some d) && entryHasOut (specDeltas hourly pr)) ||
        specHasOutOnPairs hourly rest d) := by
  simp [specHasOutOnPairs]

lemma specInHasOnPairs_cons (hourly : Series) (pr : String × String)
    (rest : List (String × String)) (d : String) :
    specInHasOnPairs hourly (pr :: rest) d =
      ((decide (date_from_hour_key pr.2 = some d) && entryInHas (specDeltas hourly pr)) ||
        specInHasOnPairs hourly rest d) := by
  simp [specInHasOnPairs]

lemma specOutTotalOnPairs_cons (hourly : Series) (pr : String × String)
    (rest : List (String × String)) (d : String) :
    specOutTotalOnPairs hourly (pr :: rest) d =
      (if decide (date_from_hour_key pr.2 = some d) = true then
        entryOutSum (specDeltas hourly pr) else 0) + specOutTotalOnPairs hourly rest d := by
  unfold specOutTotalOnPairs
  rw [List.filter_cons]
  by_cases hc : decide (date_from_hour_key pr.2 = some d) = true
  · rw [if_pos hc, if_pos hc]
    simp
  · rw [if_neg hc, if_neg hc]
    simp

lemma specInTotalOnPairs_cons (hourly : Series) (pr : String × String)
    (rest : List (String × String)) (d : String) :
    specInTotalOnPairs hourly (pr :: rest) d =
      (if decide (date_from_hour_key pr.2 = some d) = true then
        entryInSum (specDeltas hourly pr) else 0) + specInTotalOnPairs hourly rest d := by
  unfold specInTotalOnPairs
  rw [List.filter_cons]
  by_cases hc : decide (date_from_hour_key pr.2 = some d) = true
  · rw [if_pos hc, if_pos hc]
    simp
  · rw [if_neg hc, if_neg hc]
    simp

lemma dt_pairFold (hourly : Series) :
    ∀ (pairs : List (String × String)) (m : DailyMaps) (d : String),
    lookupS d ((pairs.foldl (dailyPairStep hourly) m).dt) =
      match lookupS d m.dt with
      | some v => some (v + specOutTotalOnPairs hourly pairs d)
      | none =>
        if specHasOutOnPairs hourly pairs d = true then
          some (specOutTotalOnPairs hourly pairs d)
        else none := by
  intro pairs
  induction pairs with
  | nil =>
    intro m d
    cases h : lookupS d m.dt <;>
      simp [specHasOutOnPairs, specOutTotalOnPairs, h]
  | cons pr rest ih =>
    intro m d
    rw [List.foldl_cons, ih, specHasOutOnPairs_cons, specOutTotalOnPairs_cons]
    cases hdate : date_from_hour_key pr.2 with
    | none =>
      have hc : (decide ((none : Option String) = some d)) = false := rfl
      rw [dailyPairStep_of_none hdate]
      cases h : lookupS d m.dt <;> simp [hc, h]
    | some dk =>
      rw [dailyPairStep_of_some hdate, dt_entryFold]
      by_cases hd : d = dk
      · subst hd
        have hc : (decide (some d = some d)) = true := by simp
        by_cases hA : entryHasOut (specDeltas hourly pr) = true
        · cases h : lookupS d m.dt <;> simp [hc, hA, h, Nat.add_assoc]
        · have hA2 : entryHasOut (specDeltas hourly pr) = false := by
            cases hfv : entryHasOut (specDeltas hourly pr)
            · rfl
            · exact absurd hfv hA
          cases h : lookupS d m.dt <;>
            simp [hc, hA2, h, entryOutSum_of_not_has hA2]
      · have hd2 : ¬dk = d := fun hcc => hd hcc.symm
        have hc : (decide (some dk = some d)) = false := by
          simp only [decide_eq_false_iff_not]
          intro hcc
          exact hd2 (Option.some.inj hcc)
        cases h : lookupS d m.dt <;> simp [hc, hd, hd2, h]

lemma dit_pairFold (hourly : Series) :
    ∀ (pairs : List (String × String)) (m : DailyMaps) (d : String),
    lookupS d ((pairs.foldl (dailyPairStep hourly) m).dit) =
      match lookupS d m.dit with
      | some v => some (v + specInTotalOnPairs hourly pairs d)
      | none =>
        if specInHasOnPairs hourly pairs d = true then
          some (specInTotalOnPairs hourly pairs d)
        else none := by
  intro pairs
  induction pairs with
  | nil =>
    intro m d
    cases h : lookupS d m.dit <;>
      simp [specInHasOnPairs, specInTotalOnPairs, h]
  | cons pr rest ih =>
    intro m d
    rw [List.foldl_cons, ih, specInHasOnPairs_cons, specInTotalOnPairs_cons]
    cases hdate : date_from_hour_key pr.2 with
    | none =>
      have hc : (decide ((none : Option String) = some d)) = false := rfl
      rw [dailyPairStep_of_none hdate]
      cases h : lookupS d m.dit <;> simp [hc, h]
    | some dk =>
      rw [dailyPairStep_of_some hdate, dit_entryFold]
      by_cases hd : d = dk
      · subst hd
        have hc : (decide (some d = some d)) = true := by simp
        by_cases hA : entryInHas (specDeltas hourly pr) = true
        · cases h : lookupS d m.dit <;> simp [hc, hA, h, Nat.add_assoc]
        · have hA2 : entryInHas (specDeltas hourly pr) = false := by
            cases hfv : entryInHas (specDeltas hourly pr)
            · rfl
            · exact absurd hfv hA
          cases h : lookupS d m.dit <;>
            simp [hc, hA2, h, entryInSum_of_not_has hA2]
      · have hd2 : ¬dk = d := fun hcc => hd hcc.symm
        have hc : (decide (some dk = some d)) = false := by
          simp only [decide_eq_false_iff_not]
          intro hcc
          exact hd2 (Option.some.inj hcc)
        cases h : lookupS d m.dit <;> simp [hc, hd, hd2, h]

lemma dailyMapsOf_eq (hourly : Series) :
    dailyMapsOf hourly = (specPairs hourly).foldl (dailyPairStep hourly) ⟨[], [], [], []⟩ :=
  rfl

lemma lookupS_dt (hourly : Series) (d : String) :
    lookupS d (dailyMapsOf hourly).dt =
      if specHasOutOn hourly d = true then some (specOutTotalOn hourly d) else none := by
  rw [dailyMapsOf_eq, dt_pairFold]
  rfl

lemma lookupS_dit (hourly : Series) (d : String) :
    lookupS d (dailyMapsOf hourly).dit =
      if specInHasOn hourly d = true then some (specInTotalOn hourly d) else none := by
  rw [dailyMapsOf_eq, dit_pairFold]
  rfl

lemma nodup_updateA_fst {l : List (String × α)} (k : String) (f : α → α) (d0 : α)
    (h : (l.map Prod.fst).Nodup) : ((updateA l k f d0).map Prod.fst).Nodup := by
  rw [updateA_map_fst]
  by_cases hk : k ∈ l.map Prod.fst
  · rw [if_pos hk]
    exact h
  · rw [if_neg hk]
    exact ((List.perm_append_singleton k (l.map Prod.fst)).nodup_iff).mpr
      (List.nodup_cons.mpr ⟨hk, h⟩)

lemma nodup_dt_entryFold (dk : String) :
    ∀ (entries : List (String × DeltaEntry)) (m : DailyMaps),
    (m.dt.map Prod.fst).Nodup →
    (((entries.foldl (dailyEntryStep dk) m)).dt.map Prod.fst).Nodup := by
  intro entries
  induction entries with
  | nil => intro m h; exact h
  | cons e rest ih =>
    intro m h
    rw [List.foldl_cons]
    apply ih
    rw [dailyEntryStep_dt]
    by_cases ho : e.2.has_out = true
    · rw [if_pos ho]
      exact nodup_updateA_fst dk _ 0 h
    · rw [if_neg ho]
      exact h

lemma nodup_dt_pairFold (hourly : Series) :
    ∀ (pairs : List (String × String)) (m : DailyMaps),
    (m.dt.map Prod.fst).Nodup →
    ((pairs.foldl (dailyPairStep hourly) m).dt.map Prod.fst).Nodup := by
  intro pairs
  induction pairs with
  | nil => intro m h; exact h
  | cons pr rest ih =>
    intro m h
    rw [List.foldl_cons]
    apply ih
    cases hdate : date_from_hour_key pr.2 with
    | none =>
      rw [dailyPairStep_of_none hdate]
      exact h
    | some dk =>
      rw [dailyPairStep_of_some hdate]
      exact nodup_dt_entryFold dk _ _ h

lemma nodup_dt (hourly : Series) : ((dailyMapsOf hourly).dt.map Prod.fst).Nodup := by
  rw [dailyMapsOf_eq]
  exact nodup_dt_pairFold hourly _ _ (by simp)

lemma mem_dt_keys (hourly : Series) (d : String) :
    d ∈ (dailyMapsOf hourly).dt.map Prod.fst ↔ specHasOutOn hourly d = true := by
  constructor
  · intro h
    by_cases hs : specHasOutOn hourly d = true
    · exact hs
    · exfalso
      have hnone : lookupS d (dailyMapsOf hourly).dt = none := by
        rw [lookupS_dt, if_neg hs]
      exact absurd h (lookupS_eq_none.mp hnone)
  · intro hs
    by_contra h
    have hnone : lookupS d (dailyMapsOf hourly).dt = none := lookupS_eq_none.mpr h
    rw [lookupS_dt, if_pos hs] at hnone
    exact Option.noConfusion hnone

lemma mem_specOutDates {hourly : Series} {d : String} :
    d ∈ specOutDates hourly ↔ specHasOutOn hourly d = true := by
  unfold specOutDates specHasOutOn specHasOutOnPairs
  rw [List.mem_dedup, List.mem_filterMap, List.any_eq_true]
  constructor
  · rintro ⟨pr, hpr, hdate⟩
    rw [List.mem_filter] at hpr
    refine ⟨pr, hpr.1, ?_⟩
    rw [Bool.and_eq_true]
    refine ⟨?_, hpr.2⟩
    rw [hdate]
    simp
  · rintro ⟨pr, hmem, hcond⟩
    rw [Bool.and_eq_true] at hcond
    exact ⟨pr, List.mem_filter.mpr ⟨hmem, hcond.2⟩, of_decide_eq_true hcond.1⟩

lemma apiDayKeysAll_eq (hourly : Series) :
    apiDayKeysAll hourly = sortKeys (specOutDates hourly) := by
  unfold apiDayKeysAll
  exact sortKeys_congr (nodup_dt hourly) (List.nodup_dedup _)
    (fun a => (mem_dt_keys hourly a).trans mem_specOutDates.symm)

lemma specInTotal_of_not_has {hourly : Series} {d : String}
    (h : specInHasOn hourly d = false) : specInTotalOn hourly d = 0 := by
  unfold specInHasOn specInHasOnPairs at h
  unfold specInTotalOn specInTotalOnPairs
  apply List.sum_eq_zero
  intro x hx
  rw [List.mem_map] at hx
  obtain ⟨pr, hpr, hxe⟩ := hx
  rw [List.mem_filter] at hpr
  have hall := List.any_eq_false.mp h pr hpr.1
  have hinh : entryInHas (specDeltas hourly pr) = false := by
    cases hfv : entryInHas (specDeltas hourly pr)
    · rfl
    · exfalso
      apply hall
      rw [Bool.and_eq_true]
      exact ⟨hpr.2, hfv⟩
  rw [← hxe, entryInSum_of_not_has hinh]

/-- Two-bucket series whose only delta is inbound (outbound unknown). -/
def seriesC8 : Series :=
  [("2024-01-01 00:00", [("1", ⟨some "srv", none, some 0⟩)]),
   ("2024-01-01 01:00", [("1", ⟨some "srv", none, some 1099511627776⟩)])]

/-- Two-bucket series whose single transition crosses midnight. -/
def seriesC8b : Series :=
  [("2024-01-01 23:00", [("1", ⟨some "srv", some 0, none⟩)]),
   ("2024-01-02 00:00", [("1", ⟨some "srv", some 1099511627776, none⟩)])]

/-- C8 counterexample: a series whose only transition carries a
computable 1-TiB inbound delta attributed to date 2024-01-01 — the date
has data — yet the daily view emits no day rows at all (and a zero
inbound total), because its date window is built from dates with
outbound data only; this refutes the claim that the output is restricted
to the most recent 35 dates that have any data. -/
theorem claim_C8_counterexample :
    (lookupS "srv" (specDeltas seriesC8 ("2024-01-01 00:00", "2024-01-01 01:00"))).map
      DeltaEntry.has_in = some true ∧
    date_from_hour_key "2024-01-01 01:00" = some "2024-01-01" ∧
    (api_daily seriesC8).days = [] ∧
    (api_daily seriesC8).in_total = some "0.000" := by
  decide

/-- C8 (amended): with at least two buckets, every adjacent-hour
outbound/inbound delta is attributed to the calendar date of the later
hour's bucket; the day list is restricted to the most recent 35 calendar
dates that have outbound data (sorted chronologically); each emitted row
reports exactly the outbound and inbound milli-TB attributed to its
date; and the peak is the maximum single-day outbound total across the
restricted window (zero if there are no rows). -/
theorem claim_C8_amended (hourly : Series) (h2 : 2 ≤ hourly.length) :
    (api_daily hourly).days.map DayRow.date =
      (sortKeys (specOutDates hourly)).drop
        ((sortKeys (specOutDates hourly)).length - 35) ∧
    (∀ row ∈ (api_daily hourly).days,
      row.outbound_tb = milliToStr (specOutTotalOn hourly row.date) ∧
      row.inbound_tb = milliToStr (specInTotalOn hourly row.date)) ∧
    (api_daily hourly).peak =
      milliToStr (((api_daily hourly).days.map
        (fun row => specOutTotalOn hourly row.date)).foldl max 0) := by
  have hlen : ¬((sortKeys (hourly.map Prod.fst)).length < 2) := by
    rw [sortKeys_length, List.length_map]
    omega
  have hapi : api_daily hourly =
      ⟨apiDays hourly, milliToStr (apiPeak hourly), milliToStr (apiTotal hourly),
        some (milliToStr (apiInPeak hourly)), some (milliToStr (apiInTotal hourly)),
        (sortKeys ((dailyMapsOf hourly).ps.map Prod.fst)).map (apiServerRow hourly)⟩ := by
    unfold api_daily
    rw [if_neg hlen]
  have hdays : (apiDays hourly).map DayRow.date = apiDayKeys hourly := by
    unfold apiDays
    rw [List.map_map]
    have hcomp : DayRow.date ∘ apiDayRow hourly = id := by
      funext d
      rfl
    rw [hcomp, List.map_id]
  have hrowvals : ∀ d ∈ apiDayKeys hourly,
      (lookupS d (dailyMapsOf hourly).dt).getD 0 = specOutTotalOn hourly d := by
    intro d hd
    have hdall : d ∈ apiDayKeysAll hourly := List.mem_of_mem_drop hd
    have hmem : specHasOutOn hourly d = true := by
      rw [apiDayKeysAll_eq] at hdall
      exact mem_specOutDates.mp (sortKeys_mem.mp hdall)
    rw [lookupS_dt, if_pos hmem]
    rfl
  refine ⟨?_, ?_, ?_⟩
  · rw [hapi]
    show (apiDays hourly).map DayRow.date = _
    rw [hdays]
    unfold apiDayKeys
    rw [apiDayKeysAll_eq]
  · rw [hapi]
    intro row hrow
    have hrow2 : row ∈ apiDays hourly := hrow
    unfold apiDays at hrow2
    rw [List.mem_map] at hrow2
    obtain ⟨d, hd, hrowe⟩ := hrow2
    have hdate : row.date = d := by
      rw [← hrowe]
      rfl
    constructor
    · have : row.outbound_tb = milliToStr ((lookupS d (dailyMapsOf hourly).dt).getD 0) := by
        rw [← hrowe]
        rfl
      rw [this, hrowvals d hd, hdate]
    · have hvin : row.inbound_tb =
          milliToStr ((lookupS d (dailyMapsOf hourly).dit).getD 0) := by
        rw [← hrowe]
        rfl
      rw [hvin, hdate]
      by_cases hin : specInHasOn hourly d = true
      · rw [lookupS_dit, if_pos hin]
        rfl
      · have hin2 : specInHasOn hourly d = false := by
          cases hfv : specInHasOn hourly d
          · rfl
          · exact absurd hfv hin
        rw [lookupS_dit, if_neg hin, specInTotal_of_not_has hin2]
        rfl
  · rw [hapi]
    show milliToStr (apiPeak hourly) = _
    congr 1
    unfold apiPeak apiDays
    rw [List.map_map]
    congr 1
    apply List.map_congr_left
    intro d hd
    show (lookupS d (dailyMapsOf hourly).dt).getD 0 = specOutTotalOn hourly d
    exact hrowvals d hd

/-- C8 witness: on the midnight-crossing series the day list of the
daily view is exactly the restricted window of outbound-data dates
(here the single later date 2024-01-02). -/
theorem claim_C8_witness :
    (api_daily seriesC8b).days.map DayRow.date =
      (sortKeys (specOutDates seriesC8b)).drop
        ((sortKeys (specOutDates seriesC8b)).length - 35) :=
  (claim_C8_amended seriesC8b (by decide)).1
